import Mathlib

/-!
# Verification of the sensorimotor-distance similarity/RSA core

Shallow embedding of the core of the repository
(src/predictors/rsa.py, src/hebart_comparison.py, src/similarity_comparison.py).

Conventions of the embedding:

* Machine floats are modelled by exact rationals; a separate model of
  IEEE-754 double rounding (`roundDouble`) is used where a claim is about
  bit-level float behaviour.
* A numpy matrix is a total function `Nat → Nat → ℚ` together with an
  explicitly tracked dimension (the labels list of a
  `LabelledSymmetricMatrix`, or an explicit `n` argument mirroring
  `shape[0]`). Entries outside the tracked range are irrelevant junk.
* `numpy.exp` is transcendental, so the softmax transform is parametrised
  by the function `E` applied entrywise; nothing in the verified claims
  depends on which strictly positive function it is. Similarly the square
  root inside the Pearson coefficient is passed as a parameter `s`.
* A value that is NaN in the program (the undefined Pearson coefficient on
  zero-variance input) is modelled as `Option.none`; a raised exception
  (IndexError from out-of-range fancy indexing) makes the modelled
  function return `Option.none` as well. Where one function can both raise
  and return NaN (`correlate_with`, whose `squareform` calls validate
  their input and raise ValueError on an invalid distance matrix), the
  result type is `Option (Option ℚ)`: the outer `none` is the raised
  exception, `some none` the silently returned NaN.
-/

set_option linter.unusedVariables false

/-- A numpy 2-d array of floats, as a total function; the real array is
the restriction to indices below the tracked dimension. -/
abbrev Mat : Type := Nat → Nat → ℚ

/-- `LabelledSymmetricMatrix` from src/predictors/rsa.py: a square matrix
bound to an ordered list of labels. The python constructor asserts
`len(labels) == matrix.shape[0] == matrix.shape[1]`; here the dimension of
the matrix IS `labels.length`. -/
structure LabelledSymmetricMatrix where
  matrix : Mat
  labels : List String

/-- Modelled from the spec: `find_indices` from aux.py, which is not among
the provided sources. Per the spec (section 4.1), it resolves each
requested label to its index in the source label list, skipping absent
labels, so that the callers assert
`len(idxs) == len(subset_words)` to detect absent labels. -/
def find_indices (superlist : List String) (sublist : List String) : List Nat :=
  sublist.filterMap fun w => superlist.findIdx? fun x => x == w

/-- `LabelledSymmetricMatrix.for_subset` from src/predictors/rsa.py:
`matrix[ix_(idxs, idxs)]` relabelled by the requested subset. The python
assert `len(idxs) == len(subset_words)` becomes a hypothesis of the
theorems about it. -/
def LabelledSymmetricMatrix.for_subset
    (sm : LabelledSymmetricMatrix) (subset_words : List String) :
    LabelledSymmetricMatrix :=
  let idxs := find_indices sm.labels subset_words
  { matrix := fun a b => sm.matrix (idxs.getD a 0) (idxs.getD b 0)
    labels := subset_words }

/-- The condensed vector `scipy.spatial.distance.squareform` computes on a
square matrix of dimension `n` once its input validation has passed: the
strict upper triangle read off row-major. The validation itself (scipy's
`is_valid_dm`, run because `checks=True` by default) is modelled
separately by `squareform_checked` and used where a claim depends on it;
the raw value is used in the randomisation engine, whose inputs there are
symmetric zero-diagonal distance matrices (simultaneous row and column
permutation preserves validity). -/
def squareform (m : Mat) (n : Nat) : List ℚ :=
  (List.range n).flatMap fun i =>
    (((List.range n).filter fun j => i < j).map fun j => m i j)

/-- scipy's `is_valid_dm` with zero tolerance, as `squareform` applies it
when `checks=True` (the default): within the tracked dimension the matrix
must be exactly symmetric and have an exactly zero diagonal. -/
def is_valid_dm (m : Mat) (n : Nat) : Prop :=
  (∀ i < n, ∀ j < n, m i j = m j i) ∧ ∀ i < n, m i i = 0

instance (m : Mat) (n : Nat) : Decidable (is_valid_dm m n) := by
  unfold is_valid_dm
  infer_instance

/-- `scipy.spatial.distance.squareform` with its default `checks=True`:
it raises ValueError (modelled `none`) unless the input is a valid
distance matrix, and otherwise returns the condensed upper triangle. -/
def squareform_checked (m : Mat) (n : Nat) : Option (List ℚ) :=
  if is_valid_dm m n then some (squareform m n) else none

/-- Arithmetic mean of a list of rationals (division by zero yields 0). -/
def listMean (xs : List ℚ) : ℚ := xs.sum / xs.length

/-- Sum of squared deviations from the mean; zero exactly when the list is
constant (the degenerate case in which numpy corrcoef produces NaN). -/
def sumSqDev (xs : List ℚ) : ℚ :=
  (xs.map fun x => (x - listMean xs) ^ 2).sum

/-- `numpy.corrcoef(x, y)[0, 1]`. The Pearson coefficient is
`cov / (std x * std y)`; the `1/(n-1)` normalisers cancel against the
exact square root, leaving `Sxy / sqrt (Sxx * Syy)`, with the (irrational)
square root passed in as `s`. When either vector has zero variance numpy
silently returns NaN, modelled as `none`. -/
def corrcoef (s : ℚ → ℚ) (xs ys : List ℚ) : Option ℚ :=
  if sumSqDev xs = 0 ∨ sumSqDev ys = 0 then none
  else some
    (((xs.zip ys).map fun p => (p.1 - listMean xs) * (p.2 - listMean ys)).sum
      / s (sumSqDev xs * sumSqDev ys))

/-- `LabelledSymmetricMatrix.correlate_with` from src/predictors/rsa.py:
the raw `corrcoef(squareform(self.matrix), squareform(other.matrix))[0,1]`
with no degeneracy detection of its own. The two `squareform` calls run
scipy's validation first, so an invalid input raises ValueError (outer
`none`); on valid inputs the raw Pearson value is returned, NaN included
(`some none`). The python assert `len(self.labels) == len(other.labels)`
becomes a hypothesis where needed. -/
def LabelledSymmetricMatrix.correlate_with
    (s : ℚ → ℚ) (self other : LabelledSymmetricMatrix) : Option (Option ℚ) :=
  match squareform_checked self.matrix self.labels.length,
      squareform_checked other.matrix other.labels.length with
  | some xs, some ys => some (corrcoef s xs ys)
  | _, _ => none

/-- `SimilarityMatrix.mean_softmax_probability_matrix` from
src/predictors/rsa.py. `E` stands for entrywise `numpy.exp`. Faithful to
the source: both loop indices `i` and `j` AND the inner triplet index `k`
range over `idxs`, the indices of the requested subset; the accumulated row
`ctmp` has one slot per condition (so a duplicated index contributes once,
hence the `dedup`); the matrix is divided by `len(subset_labels)`,
symmetrised by `cp += transpose(cp); cp /= 2`, has its diagonal filled
with 1, and is then selected down to `idxs`. -/
def SimilarityMatrix.mean_softmax_probability_matrix
    (E : ℚ → ℚ) (from_similarity_matrix : LabelledSymmetricMatrix)
    (subset_labels : Option (List String)) : LabelledSymmetricMatrix :=
  let subset := subset_labels.getD from_similarity_matrix.labels
  let idxs := find_indices from_similarity_matrix.labels subset
  let eS : Mat := fun i j => E (from_similarity_matrix.matrix i j)
  let cp0 : Mat := fun i j =>
    if i ∈ idxs ∧ j ∈ idxs ∧ i ≠ j then
      ((idxs.dedup.filter fun k => k ≠ i ∧ k ≠ j).map fun k =>
        eS i j / (eS i j + eS i k + eS j k)).sum
    else 0
  let cp1 : Mat := fun i j => cp0 i j / subset.length
  let cp2 : Mat := fun i j => (cp1 i j + cp1 j i) / 2
  let cp3 : Mat := fun i j => if i = j then 1 else cp2 i j
  { matrix := fun a b => cp3 (idxs.getD a 0) (idxs.getD b 0)
    labels := subset }

/-- Modelled from the spec: the unoptimised reference computation that the
comment inside `mean_softmax_probability_matrix` describes (what the spec
calls computing on the full set): build the entire matrix for all
conditions — the loops over i and j range over the full condition set,
the triplet index k over the selected subset, exactly as in the ported
Hebart code — then select out the requested entries. -/
def mean_softmax_reference (E : ℚ → ℚ) (sm : LabelledSymmetricMatrix)
    (subset : List String) : LabelledSymmetricMatrix :=
  let idxs := find_indices sm.labels subset
  let n := sm.labels.length
  let eS : Mat := fun i j => E (sm.matrix i j)
  let cp0 : Mat := fun i j =>
    if i < n ∧ j < n ∧ i ≠ j then
      ((idxs.dedup.filter fun k => k ≠ i ∧ k ≠ j).map fun k =>
        eS i j / (eS i j + eS i k + eS j k)).sum
    else 0
  let cp1 : Mat := fun i j => cp0 i j / subset.length
  let cp2 : Mat := fun i j => (cp1 i j + cp1 j i) / 2
  let cp3 : Mat := fun i j => if i = j then 1 else cp2 i j
  { matrix := fun a b => cp3 (idxs.getD a 0) (idxs.getD b 0)
    labels := subset }

/-- `SimilarityMatrix.from_rdm` from src/predictors/rsa.py:
`1 - rdm.matrix`, same labels. -/
def SimilarityMatrix.from_rdm (rdm : LabelledSymmetricMatrix) :
    LabelledSymmetricMatrix :=
  { matrix := fun i j => 1 - rdm.matrix i j, labels := rdm.labels }

/-- `RDM.from_similarity_matrix` from src/predictors/rsa.py:
`1 - similarity_matrix.matrix`, same labels. -/
def RDM.from_similarity_matrix (similarity_matrix : LabelledSymmetricMatrix) :
    LabelledSymmetricMatrix :=
  { matrix := fun i j => 1 - similarity_matrix.matrix i j
    labels := similarity_matrix.labels }

/-- NaN-aware strict comparison used inside the percentile rank: a NaN
entry of the null distribution compares false against the score, exactly
as float NaN does. -/
def nanLt (o : Option ℚ) (score : ℚ) : Bool :=
  match o with
  | some q => decide (q < score)
  | none => false

/-- NaN-aware weak comparison, see `nanLt`. -/
def nanLe (o : Option ℚ) (score : ℚ) : Bool :=
  match o with
  | some q => decide (q ≤ score)
  | none => false

/-- NaN-aware greater-or-equal test against the score, see `nanLt`; used to
state what fraction of a null distribution lies at or above an observed
correlation. -/
def nanGe (o : Option ℚ) (score : ℚ) : Bool :=
  match o with
  | some q => decide (score ≤ q)
  | none => false

/-- `scipy.stats.percentileofscore(a, score)` with the default rank kind:
with `left` the number of entries strictly below and `right` the number of
entries weakly below the score, the percentile is
`(left + right + (1 if right > left else 0)) * 50 / len(a)`. -/
def percentileofscore (xs : List (Option ℚ)) (score : ℚ) : ℚ :=
  let left := (xs.filter fun o => nanLt o score).length
  let right := (xs.filter fun o => nanLe o score).length
  ((left : ℚ) + right + (if left < right then 1 else 0)) * 50 / xs.length

/-- The list `r_perms` built by `randomisation_p` in src/predictors/rsa.py.
`perms sz t` models the value of the t-th call of
`numpy.random.permutation(sz)` in this run (the stream of draws of the
process-wide numpy PRNG); the source requests draws of size
`rdm_1.shape[0]`, passed here as `n`. Each iteration permutes the rows and
columns of the second matrix only and correlates against the fixed
condensed form of the first. -/
def null_distribution (s : ℚ → ℚ) (perms : Nat → Nat → Nat → Nat)
    (rdm_1 rdm_2 : Mat) (n : Nat) (n_perms : Nat) : List (Option ℚ) :=
  (List.range n_perms).map fun t =>
    corrcoef s (squareform rdm_1 n)
      (squareform (fun i j => rdm_2 (perms n t i) (perms n t j)) n)

/-- `randomisation_p` from src/predictors/rsa.py:
`1 - percentileofscore(r_perms, observed_r) / 100`. -/
def randomisation_p (s : ℚ → ℚ) (perms : Nat → Nat → Nat → Nat)
    (rdm_1 rdm_2 : Mat) (n : Nat) (observed_r : ℚ) (n_perms : Nat) : ℚ :=
  1 - percentileofscore (null_distribution s perms rdm_1 rdm_2 n n_perms)
        observed_r / 100

namespace Hebart

/-- Code-point lexicographic comparison of strings as character lists:
the order in which both python and numpy compare the words. -/
def charListLt : List Char → List Char → Bool
  | _, [] => false
  | [], _ :: _ => true
  | a :: as, b :: bs => a < b || (a == b && charListLt as bs)

/-- `numpy.searchsorted(all_words, select_words)` as used in
src/hebart_comparison.py, by its contract on a sorted first argument with
the default side left: each query word is mapped to its leftmost insertion
point, the number of entries of the sorted list that precede it. The
result always has one index per query word, found or not. -/
def searchsorted (a : List String) (vs : List String) : List Nat :=
  vs.map fun v => (a.filter fun x => charListLt x.data v.data).length

/-- `mean_softmax_prob_matrix` from src/hebart_comparison.py. `E` stands
for entrywise `numpy.exp`. The loop indices `i < j` range over ALL
conditions (the unoptimised port of the Hebart code), the triplet index
`k` over the selected positions only; the matrix is divided by the number
of selected conditions, completed by `cp += transpose(cp)`, diagonal
filled with 1, then selected. When any selected position falls outside
the matrix (an absent query word sorting past the end of `all_words`) the
fancy indexing `cp[ix_(word_positions_selected, ...)]` raises IndexError;
the model returns `none` for that run. -/
def mean_softmax_prob_matrix (E : ℚ → ℚ) (all_words select_words : List String)
    (similarity_matrix : Mat) : Option Mat :=
  let nAll := all_words.length
  let nSub := select_words.length
  let pos := searchsorted all_words select_words
  if ∀ p ∈ pos, p < nAll then
    let eS : Mat := fun i j => E (similarity_matrix i j)
    let cp0 : Mat := fun i j =>
      if i < nAll ∧ j < nAll ∧ i < j then
        ((pos.dedup.filter fun k => k ≠ i ∧ k ≠ j).map fun k =>
          eS i j / (eS i j + eS i k + eS j k)).sum
      else 0
    let cp1 : Mat := fun i j => cp0 i j / nSub
    let cp2 : Mat := fun i j => cp1 i j + cp1 j i
    let cp3 : Mat := fun i j => if i = j then 1 else cp2 i j
    some (fun a b => cp3 (pos.getD a 0) (pos.getD b 0))
  else none

/-- `randomisation_p` from src/hebart_comparison.py. Unlike the rsa.py
version it always requests `numpy.random.permutation(48)`, whatever the
dimension `n` of its inputs: the run succeeds only when the inputs are
48 x 48 (otherwise the fancy indexing of `rdm_2` with indices up to 47,
or the correlation of condensed vectors of different lengths, raises),
modelled by the guard returning `none`. -/
def randomisation_p (s : ℚ → ℚ) (perms : Nat → Nat → Nat → Nat)
    (rdm_1 rdm_2 : Mat) (n : Nat) (observed_r : ℚ) (n_perms : Nat) :
    Option ℚ :=
  if n = 48 ∧ ∀ t < n_perms, ∀ i < 48, perms 48 t i < n then
    some (1 - percentileofscore
      ((List.range n_perms).map fun t =>
        corrcoef s (squareform rdm_1 n)
          (squareform (fun i j => rdm_2 (perms 48 t i) (perms 48 t j)) n))
      observed_r / 100)
  else none

end Hebart

/-- The process-wide pseudo-random state of a run of
src/hebart_comparison.py. Python and numpy keep two separate generators:
`pythonRandomState` is the state of the stdlib `random` module, and
`numpyPerms` models the stream of draws that `numpy.random.permutation`
will produce, determined by the numpy generator state, which is seeded
from OS entropy at process start. -/
structure ProcessState where
  pythonRandomState : Nat
  numpyPerms : Nat → Nat → Nat → Nat

/-- `from random import seed; seed(2)` at the top of
src/hebart_comparison.py: it re-seeds the stdlib `random` generator ONLY;
the numpy generator that `numpy.random.permutation` draws from is
untouched. -/
def seedProcess (n : Nat) (st : ProcessState) : ProcessState :=
  { st with pythonRandomState := n }

/-- The inner `calc_sensorimotor_distance` of `add_sensorimotor_predictor`
in src/similarity_comparison.py. The external collaborators are passed in:
`vector_for_word` is `SensorimotorNorms().vector_for_word`, returning
`none` for a word outside the norms (the `WordNotInNormsError` branch),
and `dist` is the `distance` function of the linguistic models package. -/
def calc_sensorimotor_distance (vector_for_word : String → Option (List ℚ))
    (dist : List ℚ → List ℚ → ℚ) (row : String × String) : Option ℚ :=
  match vector_for_word row.1 with
  | none => none
  | some v1 =>
    match vector_for_word row.2 with
    | none => none
    | some v2 => some (dist v1 v2)

/-- `add_sensorimotor_predictor` from src/similarity_comparison.py: the
new predictor column produced by `dataset.apply(calc_sensorimotor_distance,
axis=1)`, one entry per row of the dataset (a row contributes its two key
words). -/
def add_sensorimotor_predictor (vector_for_word : String → Option (List ℚ))
    (dist : List ℚ → List ℚ → ℚ) (rows : List (String × String)) :
    List (Option ℚ) :=
  rows.map (calc_sensorimotor_distance vector_for_word dist)

/-- Round-half-to-even of a rational to an integer (the tie rule of
IEEE-754 default rounding). -/
def roundHalfEven (q : ℚ) : ℤ :=
  if q - ⌊q⌋ < 1 / 2 then ⌊q⌋
  else if 1 / 2 < q - ⌊q⌋ then ⌊q⌋ + 1
  else if ⌊q⌋ % 2 = 0 then ⌊q⌋ else ⌊q⌋ + 1

/-- The binade of a positive rational: the unique `e` with
`2 ^ e ≤ q < 2 ^ (e + 1)`, computed from the bit sizes of numerator and
denominator (see `ilog2_spec`). -/
def ilog2 (q : ℚ) : ℤ :=
  if q < 2 ^ ((q.num.toNat.size : ℤ) - q.den.size)
  then (q.num.toNat.size : ℤ) - q.den.size - 1
  else (q.num.toNat.size : ℤ) - q.den.size

/-- Round-half-to-even of a positive rational to the 53-bit-significand
grid of IEEE-754 binary64 (normal range; overflow and subnormals do not
occur in the values considered here). -/
def roundDoublePos (q : ℚ) : ℚ :=
  (roundHalfEven (q / 2 ^ (ilog2 q - 52)) : ℚ) * 2 ^ (ilog2 q - 52)

/-- The IEEE-754 binary64 value nearest a rational (ties to even): the
model of what numpy stores for a real number. -/
def roundDouble (q : ℚ) : ℚ :=
  if q = 0 then 0
  else if 0 < q then roundDoublePos q
  else -roundDoublePos (-q)

/-- Binary64 subtraction: exact difference, correctly rounded. -/
def sub64 (x y : ℚ) : ℚ := roundDouble (x - y)

/-- `SimilarityMatrix.from_rdm` at binary64 precision: the entrywise
float subtraction `1 - rdm.matrix` that numpy actually performs. -/
def SimilarityMatrix.from_rdm64 (rdm : LabelledSymmetricMatrix) :
    LabelledSymmetricMatrix :=
  { matrix := fun i j => sub64 1 (rdm.matrix i j), labels := rdm.labels }

/-- `RDM.from_similarity_matrix` at binary64 precision, see
`SimilarityMatrix.from_rdm64`. -/
def RDM.from_similarity_matrix64 (similarity_matrix : LabelledSymmetricMatrix) :
    LabelledSymmetricMatrix :=
  { matrix := fun i j => sub64 1 (similarity_matrix.matrix i j)
    labels := similarity_matrix.labels }

/-! ### Concrete instances used by witnesses and counterexamples -/

/-- A 3-condition similarity matrix that is identically zero. -/
def zeroSM3 : LabelledSymmetricMatrix := ⟨fun _ _ => 0, ["a", "b", "c"]⟩

/-- A 3-condition matrix with zero diagonal and constant off-diagonal
entries: a valid distance matrix (it passes scipy's squareform
validation) whose condensed form nevertheless has zero variance. -/
def constOff3 : LabelledSymmetricMatrix :=
  ⟨fun i j => if i = j then 0 else 5, ["a", "b", "c"]⟩

/-- A constant stand-in for the entrywise exponential. -/
def oneE : ℚ → ℚ := fun _ => 1

/-- A concrete symmetric zero-diagonal 3 x 3 dissimilarity matrix with
rows (0 1 2), (1 0 4), (2 4 0). -/
def Dmat : Mat := fun i j =>
  if (i = 0 ∧ j = 1) ∨ (i = 1 ∧ j = 0) then 1
  else if (i = 0 ∧ j = 2) ∨ (i = 2 ∧ j = 0) then 2
  else if (i = 1 ∧ j = 2) ∨ (i = 2 ∧ j = 1) then 4
  else 0

/-- The everywhere-zero matrix. -/
def zMat : Mat := fun _ _ => 0

/-- A concrete stand-in for the square root inside the Pearson
coefficient (its numeric values are irrelevant to the properties below). -/
def idSqrt : ℚ → ℚ := fun q => q

/-- A permutation stream whose every draw is the identity permutation: one
possible value of the numpy generator state. -/
def idPerms : Nat → Nat → Nat → Nat := fun _ _ i => i

/-- A permutation stream whose every draw swaps indices 0 and 1: another
possible value of the numpy generator state. -/
def swapPerms : Nat → Nat → Nat → Nat :=
  fun _ _ i => if i = 0 then 1 else if i = 1 then 0 else i

/-- A sensorimotor-norms lookup that covers the single word cat. -/
def catLookup : String → Option (List ℚ) :=
  fun w => if w = "cat" then some [1] else none

/-- A trivial distance between sensorimotor vectors. -/
def zeroDist : List ℚ → List ℚ → ℚ := fun _ _ => 0

/-! ### General helper lemmas -/

theorem find_indices_lt (superlist sublist : List String) :
    ∀ i ∈ find_indices superlist sublist, i < superlist.length := by
  intro i hi
  rw [find_indices, List.mem_filterMap] at hi
  obtain ⟨w, -, hw⟩ := hi
  obtain ⟨hlt, -⟩ := List.findIdx?_eq_some_iff_getElem.mp hw
  exact hlt

theorem getD_mem_of_lt {α : Type} (l : List α) (i : Nat) (d : α)
    (h : i < l.length) : l.getD i d ∈ l := by
  rw [List.getD_eq_getElem?_getD, List.getElem?_eq_getElem h]
  exact List.getElem_mem h

theorem getD_map_of_lt {α β : Type} (f : α → β) (l : List α) (i : Nat)
    (d : β) (e : α) (h : i < l.length) :
    (l.map f).getD i d = f (l.getD i e) := by
  rw [List.getD_eq_getElem?_getD, List.getD_eq_getElem?_getD,
    List.getElem?_map, List.getElem?_eq_getElem h]
  simp

theorem getD_nodup_inj {α : Type} (l : List α) (a b : Nat) (d : α)
    (hnd : l.Nodup) (ha : a < l.length) (hb : b < l.length)
    (h : l.getD a d = l.getD b d) : a = b := by
  rw [List.getD_eq_getElem?_getD, List.getElem?_eq_getElem ha,
    List.getD_eq_getElem?_getD, List.getElem?_eq_getElem hb] at h
  exact hnd.getElem_inj_iff.mp h

theorem length_filter_add_length_filter_not {α : Type} (l : List α)
    (p : α → Bool) :
    (l.filter p).length + (l.filter fun a => !(p a)).length = l.length := by
  induction l with
  | nil => rfl
  | cons x xs ih =>
    by_cases hx : p x
    · simp only [List.filter_cons, hx, if_pos, Bool.not_true, Bool.false_eq_true,
        if_false, List.length_cons, List.length]
      omega
    · simp only [List.filter_cons, hx, Bool.false_eq_true, if_false, Bool.not_false,
        if_pos, List.length_cons, List.length]
      omega

/-! ### Correctness of the binade function and of binary64 rounding -/

theorem ilog2_spec (q : ℚ) (h : 0 < q) :
    (2:ℚ) ^ ilog2 q ≤ q ∧ q < (2:ℚ) ^ (ilog2 q + 1) := by
  have hnum : 0 < q.num := Rat.num_pos.mpr h
  have hna : 1 ≤ q.num.toNat := by omega
  have hden : 1 ≤ q.den := q.pos
  have hp0 : 0 < q.num.toNat.size := Nat.lt_size.mpr (by simpa using hna)
  have hs0 : 0 < q.den.size := Nat.lt_size.mpr (by simpa using hden)
  have hA1 : 2 ^ (q.num.toNat.size - 1) ≤ q.num.toNat :=
    Nat.lt_size.mp (by omega)
  have hA2 : q.num.toNat < 2 ^ q.num.toNat.size := Nat.lt_size_self _
  have hB1 : 2 ^ (q.den.size - 1) ≤ q.den := Nat.lt_size.mp (by omega)
  have hB2 : q.den < 2 ^ q.den.size := Nat.lt_size_self _
  have hA1q : (2:ℚ) ^ ((q.num.toNat.size : ℤ) - 1) ≤ (q.num.toNat : ℚ) := by
    have he : ((q.num.toNat.size : ℤ) - 1) = ((q.num.toNat.size - 1 : ℕ) : ℤ) := by
      omega
    rw [he, zpow_natCast]
    exact_mod_cast hA1
  have hA2q : (q.num.toNat : ℚ) < (2:ℚ) ^ (q.num.toNat.size : ℤ) := by
    rw [zpow_natCast]; exact_mod_cast hA2
  have hB1q : (2:ℚ) ^ ((q.den.size : ℤ) - 1) ≤ (q.den : ℚ) := by
    have he : ((q.den.size : ℤ) - 1) = ((q.den.size - 1 : ℕ) : ℤ) := by omega
    rw [he, zpow_natCast]
    exact_mod_cast hB1
  have hB2q : (q.den : ℚ) < (2:ℚ) ^ (q.den.size : ℤ) := by
    rw [zpow_natCast]; exact_mod_cast hB2
  have hdq : (0:ℚ) < (q.den : ℚ) := by exact_mod_cast hden
  have hnaq : (0:ℚ) < (q.num.toNat : ℚ) := by exact_mod_cast hna
  have hq : q = (q.num.toNat : ℚ) / (q.den : ℚ) := by
    conv_lhs => rw [← Rat.num_div_den q]
    congr 1
    exact_mod_cast (Int.toNat_of_nonneg hnum.le).symm
  have hlow : (2:ℚ) ^ ((q.num.toNat.size : ℤ) - (q.den.size : ℤ) - 1) < q := by
    have e1 : (2:ℚ) ^ ((q.num.toNat.size : ℤ) - (q.den.size : ℤ) - 1)
        = (2:ℚ) ^ ((q.num.toNat.size : ℤ) - 1) / (2:ℚ) ^ (q.den.size : ℤ) := by
      rw [← zpow_sub₀ (by norm_num : (2:ℚ) ≠ 0)]
      ring_nf
    have main : (2:ℚ) ^ ((q.num.toNat.size : ℤ) - 1) / (2:ℚ) ^ (q.den.size : ℤ)
        < (q.num.toNat : ℚ) / (q.den : ℚ) := by
      calc (2:ℚ) ^ ((q.num.toNat.size : ℤ) - 1) / (2:ℚ) ^ (q.den.size : ℤ)
          ≤ (q.num.toNat : ℚ) / (2:ℚ) ^ (q.den.size : ℤ) :=
            (div_le_div_iff_of_pos_right (zpow_pos (by norm_num) _)).mpr hA1q
        _ < (q.num.toNat : ℚ) / (q.den : ℚ) :=
            div_lt_div_of_pos_left hnaq hdq hB2q
    rw [e1]
    exact main.trans_eq hq.symm
  have hhigh : q < (2:ℚ) ^ ((q.num.toNat.size : ℤ) - (q.den.size : ℤ) + 1) := by
    have e1 : (2:ℚ) ^ ((q.num.toNat.size : ℤ) - (q.den.size : ℤ) + 1)
        = (2:ℚ) ^ (q.num.toNat.size : ℤ) / (2:ℚ) ^ ((q.den.size : ℤ) - 1) := by
      rw [← zpow_sub₀ (by norm_num : (2:ℚ) ≠ 0)]
      ring_nf
    have main : (q.num.toNat : ℚ) / (q.den : ℚ)
        < (2:ℚ) ^ (q.num.toNat.size : ℤ) / (2:ℚ) ^ ((q.den.size : ℤ) - 1) := by
      calc (q.num.toNat : ℚ) / (q.den : ℚ)
          ≤ (q.num.toNat : ℚ) / (2:ℚ) ^ ((q.den.size : ℤ) - 1) :=
            div_le_div_of_nonneg_left hnaq.le (zpow_pos (by norm_num) _) hB1q
        _ < (2:ℚ) ^ (q.num.toNat.size : ℤ) / (2:ℚ) ^ ((q.den.size : ℤ) - 1) :=
            (div_lt_div_iff_of_pos_right (zpow_pos (by norm_num) _)).mpr hA2q
    rw [e1]
    exact lt_of_eq_of_lt hq main
  unfold ilog2
  split_ifs with hc
  · refine ⟨hlow.le, ?_⟩
    have he : (q.num.toNat.size : ℤ) - (q.den.size : ℤ) - 1 + 1
        = (q.num.toNat.size : ℤ) - (q.den.size : ℤ) := by ring
    rw [he]
    exact hc
  · exact ⟨not_lt.mp hc, hhigh⟩

theorem roundDouble_eq_binade (x : ℚ) (e m : ℤ) (h0 : 0 < x)
    (hl : (2:ℚ) ^ e ≤ x) (hu : x < (2:ℚ) ^ (e + 1))
    (hm : roundHalfEven (x * 2 ^ (52 - e)) = m) :
    roundDouble x = (m : ℚ) * 2 ^ (e - 52) := by
  have hE : ilog2 x = e := by
    rcases ilog2_spec x h0 with ⟨hs1, hs2⟩
    by_contra hne
    rcases lt_or_gt_of_ne hne with hlt | hgt
    · have hpow : (2:ℚ) ^ (ilog2 x + 1) ≤ (2:ℚ) ^ e :=
        zpow_le_zpow_right₀ (by norm_num) (by omega)
      exact absurd (lt_of_lt_of_le hs2 (le_trans hpow hl)) (lt_irrefl x)
    · have hpow : (2:ℚ) ^ (e + 1) ≤ (2:ℚ) ^ (ilog2 x) :=
        zpow_le_zpow_right₀ (by norm_num) (by omega)
      exact absurd (lt_of_lt_of_le hu (le_trans hpow hs1)) (lt_irrefl x)
  have hx0 : x ≠ 0 := h0.ne'
  rw [roundDouble, if_neg hx0, if_pos h0, roundDoublePos, hE]
  have hdiv : x / (2:ℚ) ^ (e - 52) = x * 2 ^ (52 - e) := by
    rw [div_eq_mul_inv, ← zpow_neg]
    congr 1
    ring_nf
  rw [hdiv, hm]

theorem roundDouble_tenth :
    roundDouble (1 / 10) = 7205759403792794 * (2:ℚ) ^ (-(56:ℤ)) := by
  have h := roundDouble_eq_binade (1/10) (-4) 7205759403792794 (by norm_num)
    (by norm_num) (by norm_num) (by norm_num [roundHalfEven])
  convert h using 2

theorem roundDouble_step2 :
    roundDouble (1 - 7205759403792794 * (2:ℚ) ^ (-(56:ℤ)))
      = 8106479329266893 * (2:ℚ) ^ (-(53:ℤ)) := by
  have h := roundDouble_eq_binade (1 - 7205759403792794 * (2:ℚ) ^ (-(56:ℤ)))
    (-1) 8106479329266893 (by norm_num)
    (by norm_num) (by norm_num) (by norm_num [roundHalfEven])
  convert h using 2

theorem roundDouble_step3 :
    roundDouble (1 - 8106479329266893 * (2:ℚ) ^ (-(53:ℤ)))
      = 7205759403792792 * (2:ℚ) ^ (-(56:ℤ)) := by
  have h := roundDouble_eq_binade (1 - 8106479329266893 * (2:ℚ) ^ (-(53:ℤ)))
    (-4) 7205759403792792 (by norm_num)
    (by norm_num) (by norm_num) (by norm_num [roundHalfEven])
  convert h using 2

/-! ### Concrete evaluations shared by witnesses and counterexamples -/

theorem find_indices_sub_eval : find_indices ["a","b","c"] ["a","b"] = [0, 1] := by
  decide

theorem find_indices_full_eval :
    find_indices ["a","b","c"] ["a","b","c"] = [0, 1, 2] := by
  decide

theorem null_distribution_id_eval :
    null_distribution idSqrt idPerms Dmat Dmat 3 1 = [some (3/14)] := by
  norm_num [null_distribution, corrcoef, squareform, Dmat, idSqrt, idPerms,
    List.range_succ, sumSqDev, listMean]

theorem null_distribution_swap_eval :
    null_distribution idSqrt swapPerms Dmat Dmat 3 1 = [some (3/98)] := by
  norm_num [null_distribution, corrcoef, squareform, Dmat, idSqrt, swapPerms,
    List.range_succ, sumSqDev, listMean]

/-! ### C1 -/

/-- C1, counterexample to the claim as stated: on the all-zero similarity
matrix over labels a b c with the requested subset a b, the entry for the
ordered pair (0, 1) of the computed matrix is NOT the sum over every other
condition k drawn from the FULL condition set (which here is the single
k = 2, contributing exp(S01)/(exp(S01)+exp(S02)+exp(S12)), in total 1/6
after dividing by the subset size 2): the code sums k over the SUBSET
only, so the entry is 0. -/
theorem c1_counterexample :
    (SimilarityMatrix.mean_softmax_probability_matrix oneE zeroSM3
        (some ["a", "b"])).matrix 0 1
      ≠ (((find_indices zeroSM3.labels zeroSM3.labels).filter fun k =>
            k ≠ 0 ∧ k ≠ 1).map fun k =>
          oneE (zeroSM3.matrix 0 1)
            / (oneE (zeroSM3.matrix 0 1) + oneE (zeroSM3.matrix 0 k)
              + oneE (zeroSM3.matrix 1 k))).sum
        / (["a", "b"] : List String).length := by
  norm_num [SimilarityMatrix.mean_softmax_probability_matrix, zeroSM3, oneE,
    find_indices_sub_eval, find_indices_full_eval]

/-- C1, amended: for every similarity matrix (symmetric on its resolved
indices), every subset of its labels whose resolved indices are complete
and duplicate-free, and every ordered pair (a, b) of distinct subset
positions, `mean_softmax_probability_matrix` computes the sum over every
other condition k drawn from the SUBSET (not the full condition set),
excluding k equal to either member of the pair, of
exp(S[i,j]) / (exp(S[i,j]) + exp(S[i,k]) + exp(S[j,k])), divided by the
number of conditions in the subset. -/
theorem c1_mean_softmax_subset_triplet_sum
    (E : ℚ → ℚ) (sm : LabelledSymmetricMatrix) (subset : List String) (a b : Nat)
    (hlen : (find_indices sm.labels subset).length = subset.length)
    (hnd : (find_indices sm.labels subset).Nodup)
    (hsym : ∀ i ∈ find_indices sm.labels subset,
      ∀ j ∈ find_indices sm.labels subset, sm.matrix i j = sm.matrix j i)
    (ha : a < subset.length) (hb : b < subset.length) (hab : a ≠ b) :
    (SimilarityMatrix.mean_softmax_probability_matrix E sm (some subset)).matrix a b
      = (((find_indices sm.labels subset).filter fun k =>
            k ≠ (find_indices sm.labels subset).getD a 0
            ∧ k ≠ (find_indices sm.labels subset).getD b 0).map fun k =>
          E (sm.matrix ((find_indices sm.labels subset).getD a 0)
              ((find_indices sm.labels subset).getD b 0))
            / (E (sm.matrix ((find_indices sm.labels subset).getD a 0)
                  ((find_indices sm.labels subset).getD b 0))
              + E (sm.matrix ((find_indices sm.labels subset).getD a 0) k)
              + E (sm.matrix ((find_indices sm.labels subset).getD b 0) k))).sum
        / subset.length := by
  have ha2 : a < (find_indices sm.labels subset).length := by omega
  have hb2 : b < (find_indices sm.labels subset).length := by omega
  have hi : (find_indices sm.labels subset).getD a 0 ∈ find_indices sm.labels subset :=
    getD_mem_of_lt _ _ _ ha2
  have hj : (find_indices sm.labels subset).getD b 0 ∈ find_indices sm.labels subset :=
    getD_mem_of_lt _ _ _ hb2
  have hij : (find_indices sm.labels subset).getD a 0
      ≠ (find_indices sm.labels subset).getD b 0 := by
    intro hEq
    exact hab (getD_nodup_inj _ _ _ _ hnd ha2 hb2 hEq)
  simp only [SimilarityMatrix.mean_softmax_probability_matrix, Option.getD_some]
  rw [if_neg hij, if_pos ⟨hi, hj, hij⟩, if_pos ⟨hj, hi, hij.symm⟩, hnd.dedup]
  have hS : ((( find_indices sm.labels subset).filter fun k =>
        k ≠ (find_indices sm.labels subset).getD b 0
        ∧ k ≠ (find_indices sm.labels subset).getD a 0).map fun k =>
      E (sm.matrix ((find_indices sm.labels subset).getD b 0)
          ((find_indices sm.labels subset).getD a 0))
        / (E (sm.matrix ((find_indices sm.labels subset).getD b 0)
              ((find_indices sm.labels subset).getD a 0))
          + E (sm.matrix ((find_indices sm.labels subset).getD b 0) k)
          + E (sm.matrix ((find_indices sm.labels subset).getD a 0) k))).sum
      = (((find_indices sm.labels subset).filter fun k =>
            k ≠ (find_indices sm.labels subset).getD a 0
            ∧ k ≠ (find_indices sm.labels subset).getD b 0).map fun k =>
          E (sm.matrix ((find_indices sm.labels subset).getD a 0)
              ((find_indices sm.labels subset).getD b 0))
            / (E (sm.matrix ((find_indices sm.labels subset).getD a 0)
                  ((find_indices sm.labels subset).getD b 0))
              + E (sm.matrix ((find_indices sm.labels subset).getD a 0) k)
              + E (sm.matrix ((find_indices sm.labels subset).getD b 0) k))).sum := by
    have hfil : ((find_indices sm.labels subset).filter fun k =>
          decide (k ≠ (find_indices sm.labels subset).getD b 0
            ∧ k ≠ (find_indices sm.labels subset).getD a 0))
        = ((find_indices sm.labels subset).filter fun k =>
          decide (k ≠ (find_indices sm.labels subset).getD a 0
            ∧ k ≠ (find_indices sm.labels subset).getD b 0)) :=
      List.filter_congr fun k _ => decide_eq_decide.mpr and_comm
    rw [hfil]
    apply congrArg List.sum
    apply List.map_congr_left
    intro k hk
    rw [hsym _ hj _ hi]
    ring
  rw [hS]
  ring

/-- C1, witness: the amended theorem applied to the all-zero similarity
matrix over a b c, subset a b, pair (0, 1). -/
theorem c1_mean_softmax_subset_triplet_sum_witness :
    (find_indices zeroSM3.labels ["a", "b"]).length
        = (["a", "b"] : List String).length
    ∧ (find_indices zeroSM3.labels ["a", "b"]).Nodup
    ∧ (∀ i ∈ find_indices zeroSM3.labels ["a", "b"],
        ∀ j ∈ find_indices zeroSM3.labels ["a", "b"],
          zeroSM3.matrix i j = zeroSM3.matrix j i)
    ∧ 0 < (["a", "b"] : List String).length
    ∧ 1 < (["a", "b"] : List String).length
    ∧ (0 : Nat) ≠ 1
    ∧ (SimilarityMatrix.mean_softmax_probability_matrix oneE zeroSM3
          (some ["a", "b"])).matrix 0 1
        = (((find_indices zeroSM3.labels ["a", "b"]).filter fun k =>
              k ≠ (find_indices zeroSM3.labels ["a", "b"]).getD 0 0
              ∧ k ≠ (find_indices zeroSM3.labels ["a", "b"]).getD 1 0).map fun k =>
            oneE (zeroSM3.matrix ((find_indices zeroSM3.labels ["a", "b"]).getD 0 0)
                ((find_indices zeroSM3.labels ["a", "b"]).getD 1 0))
              / (oneE (zeroSM3.matrix ((find_indices zeroSM3.labels ["a", "b"]).getD 0 0)
                    ((find_indices zeroSM3.labels ["a", "b"]).getD 1 0))
                + oneE (zeroSM3.matrix ((find_indices zeroSM3.labels ["a", "b"]).getD 0 0) k)
                + oneE (zeroSM3.matrix ((find_indices zeroSM3.labels ["a", "b"]).getD 1 0) k))).sum
          / (["a", "b"] : List String).length :=
  ⟨by decide, by decide, by intro i _ j _; rfl, by decide, by decide, by decide,
    c1_mean_softmax_subset_triplet_sum oneE zeroSM3 ["a", "b"] 0 1 (by decide)
      (by decide) (by intro i _ j _; rfl) (by decide) (by decide) (by decide)⟩

/-! ### C2 -/

/-- C2, counterexample to the claim as stated: on the all-zero similarity
matrix over a b c, computing on the full label set and then narrowing with
`for_subset` to a b gives entry (0, 1) equal to 1/9 (k ranges over the full
set and the normaliser is 3), while passing a b as `subset_labels` gives 0
(no third subset condition is available as k): the difference is exactly
1/9, far beyond any small numeric tolerance. -/
theorem c2_counterexample :
    ((SimilarityMatrix.mean_softmax_probability_matrix oneE zeroSM3
          none).for_subset ["a", "b"]).matrix 0 1
      - (SimilarityMatrix.mean_softmax_probability_matrix oneE zeroSM3
          (some ["a", "b"])).matrix 0 1 = 1 / 9 := by
  norm_num [SimilarityMatrix.mean_softmax_probability_matrix,
    LabelledSymmetricMatrix.for_subset, zeroSM3, oneE,
    find_indices_sub_eval, find_indices_full_eval]

/-- C2, amended: the optimisation of `mean_softmax_probability_matrix` —
restricting the i, j loops to the requested subset — agrees EXACTLY (in
exact arithmetic, entry by entry within the subset dimension, labels
included) with the unoptimised reference that builds the entire matrix
over all conditions with the triplet index k over the subset and then
selects the subset entries; it does not agree with
`mean_softmax_probability_matrix` on the full label set narrowed by
`for_subset`, because there k ranges over the full set. -/
theorem c2_subset_optimisation_matches_reference
    (E : ℚ → ℚ) (sm : LabelledSymmetricMatrix)
    (subset : List String) (a b : Nat)
    (hlen : (find_indices sm.labels subset).length = subset.length)
    (ha : a < subset.length) (hb : b < subset.length) :
    (SimilarityMatrix.mean_softmax_probability_matrix E sm (some subset)).matrix a b
      = (mean_softmax_reference E sm subset).matrix a b
    ∧ (SimilarityMatrix.mean_softmax_probability_matrix E sm (some subset)).labels
      = (mean_softmax_reference E sm subset).labels := by
  refine ⟨?_, rfl⟩
  have ha2 : a < (find_indices sm.labels subset).length := by omega
  have hb2 : b < (find_indices sm.labels subset).length := by omega
  have hi : (find_indices sm.labels subset).getD a 0 ∈ find_indices sm.labels subset :=
    getD_mem_of_lt _ _ _ ha2
  have hj : (find_indices sm.labels subset).getD b 0 ∈ find_indices sm.labels subset :=
    getD_mem_of_lt _ _ _ hb2
  have hiL : (find_indices sm.labels subset).getD a 0 < sm.labels.length :=
    find_indices_lt _ _ _ hi
  have hjL : (find_indices sm.labels subset).getD b 0 < sm.labels.length :=
    find_indices_lt _ _ _ hj
  simp only [SimilarityMatrix.mean_softmax_probability_matrix,
    mean_softmax_reference, Option.getD_some]
  by_cases hij : (find_indices sm.labels subset).getD a 0
      = (find_indices sm.labels subset).getD b 0
  · rw [if_pos hij, if_pos hij]
  · rw [if_neg hij, if_neg hij, if_pos ⟨hi, hj, hij⟩, if_pos ⟨hj, hi, Ne.symm hij⟩,
      if_pos ⟨hiL, hjL, hij⟩, if_pos ⟨hjL, hiL, Ne.symm hij⟩]

/-- C2, witness: the amended theorem applied to the all-zero similarity
matrix over a b c, subset a b, pair (0, 1). -/
theorem c2_subset_optimisation_matches_reference_witness :
    (find_indices zeroSM3.labels ["a", "b"]).length
        = (["a", "b"] : List String).length
    ∧ 0 < (["a", "b"] : List String).length
    ∧ 1 < (["a", "b"] : List String).length
    ∧ ((SimilarityMatrix.mean_softmax_probability_matrix oneE zeroSM3
          (some ["a", "b"])).matrix 0 1
        = (mean_softmax_reference oneE zeroSM3 ["a", "b"]).matrix 0 1
      ∧ (SimilarityMatrix.mean_softmax_probability_matrix oneE zeroSM3
          (some ["a", "b"])).labels
        = (mean_softmax_reference oneE zeroSM3 ["a", "b"]).labels) :=
  ⟨by decide, by decide, by decide,
    c2_subset_optimisation_matches_reference oneE zeroSM3 ["a", "b"] 0 1
      (by decide) (by decide) (by decide)⟩

/-! ### C3 -/

/-- C3, counterexample to the claim as stated: when the observed
correlation ties a value of the null distribution, the returned p-value is
not the fraction of null values greater than or equal to it. Here the null
distribution is the single value 3/14 and the observed correlation is
3/14: the fraction of null values at or above it is 1, but scipy's rank
percentile of an exact match is 100, so the code returns 0. -/
theorem c3_counterexample :
    randomisation_p idSqrt idPerms Dmat Dmat 3 (3 / 14) 1
      ≠ ((null_distribution idSqrt idPerms Dmat Dmat 3 1).countP
            (fun o => nanGe o (3 / 14)) : ℚ) / 1 := by
  norm_num [randomisation_p, percentileofscore, null_distribution_id_eval,
    nanLt, nanLe, nanGe]

/-- C3, amended: `randomisation_p` returns
`1 - percentileofscore(null_distribution, observed_r) / 100` (that is its
definition), and whenever the null distribution contains no NaN and no
value exactly equal to the observed correlation, this equals the fraction
of the n_perms null-distribution values greater than or equal to the
observed correlation; with an exact tie the rank percentile averages the
strict and weak ranks, so equality can fail. -/
theorem c3_randomisation_p_fraction_ge (s : ℚ → ℚ)
    (perms : Nat → Nat → Nat → Nat) (rdm_1 rdm_2 : Mat) (n : Nat)
    (observed_r : ℚ) (n_perms : Nat)
    (hpos : 0 < n_perms)
    (hnan : Option.none ∉ null_distribution s perms rdm_1 rdm_2 n n_perms)
    (htie : some observed_r ∉ null_distribution s perms rdm_1 rdm_2 n n_perms) :
    randomisation_p s perms rdm_1 rdm_2 n observed_r n_perms
      = ((null_distribution s perms rdm_1 rdm_2 n n_perms).countP
            (fun o => nanGe o observed_r) : ℚ) / n_perms := by
  unfold randomisation_p percentileofscore
  set xs := null_distribution s perms rdm_1 rdm_2 n n_perms with hxs
  have hlen : xs.length = n_perms := by
    rw [hxs]; unfold null_distribution; simp
  have hLR : xs.filter (fun o => nanLe o observed_r)
      = xs.filter (fun o => nanLt o observed_r) := by
    apply List.filter_congr
    intro o ho
    cases o with
    | none => rfl
    | some q =>
      have hq : q ≠ observed_r := by
        intro hEq
        exact htie (hEq ▸ ho)
      show nanLe (some q) observed_r = nanLt (some q) observed_r
      unfold nanLe nanLt
      exact decide_eq_decide.mpr ⟨fun h => h.lt_of_ne hq, le_of_lt⟩
  have hGL : xs.filter (fun o => nanGe o observed_r)
      = xs.filter (fun o => !(nanLt o observed_r)) := by
    apply List.filter_congr
    intro o ho
    cases o with
    | none => exact absurd ho hnan
    | some q =>
      show nanGe (some q) observed_r = !(nanLt (some q) observed_r)
      unfold nanGe nanLt
      rw [← decide_not]
      exact decide_eq_decide.mpr not_lt.symm
  have hcomp : (xs.filter (fun o => nanGe o observed_r)).length
      + (xs.filter (fun o => nanLt o observed_r)).length = n_perms := by
    have h := length_filter_add_length_filter_not xs (fun o => nanLt o observed_r)
    rw [hGL]
    omega
  rw [List.countP_eq_length_filter, hLR, hlen]
  simp only [lt_self_iff_false, if_false]
  have hn0 : ((n_perms : ℚ)) ≠ 0 := Nat.cast_ne_zero.mpr hpos.ne'
  have hGL2 : ((xs.filter (fun o => nanGe o observed_r)).length : ℚ)
      + ((xs.filter (fun o => nanLt o observed_r)).length : ℚ) = (n_perms : ℚ) := by
    exact_mod_cast hcomp
  field_simp
  have hG : ((xs.filter (fun o => nanGe o observed_r)).length : ℚ)
      = (n_perms : ℚ) - ((xs.filter (fun o => nanLt o observed_r)).length : ℚ) := by
    linarith [hGL2]
  rw [hG]
  ring

/-- C3, witness: the amended theorem applied to a concrete 3 x 3 pair with
a one-draw identity permutation stream; the null distribution is the
single defined value 3/14, the observed correlation 1/20 ties nothing, and
the p-value 1 equals the fraction (one of one) of null values at or above
1/20. -/
theorem c3_randomisation_p_fraction_ge_witness :
    0 < 1
    ∧ Option.none ∉ null_distribution idSqrt idPerms Dmat Dmat 3 1
    ∧ some ((1 : ℚ) / 20) ∉ null_distribution idSqrt idPerms Dmat Dmat 3 1
    ∧ randomisation_p idSqrt idPerms Dmat Dmat 3 (1 / 20) 1
        = ((null_distribution idSqrt idPerms Dmat Dmat 3 1).countP
              (fun o => nanGe o (1 / 20)) : ℚ) / 1 := by
  have hnan : Option.none ∉ null_distribution idSqrt idPerms Dmat Dmat 3 1 := by
    rw [null_distribution_id_eval]; simp
  have htie : some ((1 : ℚ) / 20) ∉ null_distribution idSqrt idPerms Dmat Dmat 3 1 := by
    rw [null_distribution_id_eval]; simp; norm_num
  exact ⟨by decide, hnan, htie,
    c3_randomisation_p_fraction_ge idSqrt idPerms Dmat Dmat 3 (1/20) 1
      (by decide) hnan htie⟩

/-! ### C4 -/

/-- C4, the code bug exhibited: `seed(2)` at the top of
src/hebart_comparison.py seeds the stdlib random module only, while the
randomisation test draws its permutations from numpy.random, whose state
comes from OS entropy at process start. Two process states seeded
identically with 2 (their python states agree after seeding) but whose
numpy generators happen to produce different permutation streams (identity
draws versus 0-1-swap draws) give different p-values — 1 versus 0 — on the
same concrete inputs, so identically seeded runs are not bit-identical. -/
theorem c4_seed_does_not_determine_p :
    (seedProcess 2 ⟨0, idPerms⟩).pythonRandomState
      = (seedProcess 2 ⟨0, swapPerms⟩).pythonRandomState
    ∧ randomisation_p idSqrt (seedProcess 2 ⟨0, idPerms⟩).numpyPerms
        Dmat Dmat 3 (1/20) 1
      ≠ randomisation_p idSqrt (seedProcess 2 ⟨0, swapPerms⟩).numpyPerms
        Dmat Dmat 3 (1/20) 1 := by
  refine ⟨rfl, ?_⟩
  show randomisation_p idSqrt idPerms Dmat Dmat 3 (1/20) 1
      ≠ randomisation_p idSqrt swapPerms Dmat Dmat 3 (1/20) 1
  norm_num [randomisation_p, percentileofscore, null_distribution_id_eval,
    null_distribution_swap_eval, nanLt, nanLe]

/-! ### C5 -/

/-- C5: for every square symmetric input similarity matrix (and in fact
for every input), every entrywise-exponential stand-in and every requested
subset, the matrix returned by `mean_softmax_probability_matrix` satisfies
`result[a,b] = result[b,a]` exactly — the explicit symmetrisation
`(M + Mᵗ)/2` makes the two entries literally the same rational — and every
diagonal entry equals exactly 1. -/
theorem c5_mean_softmax_symmetric_unit_diagonal
    (E : ℚ → ℚ) (sm : LabelledSymmetricMatrix)
    (subset_labels : Option (List String))
    (hsym : ∀ i ∈ List.range sm.labels.length, ∀ j ∈ List.range sm.labels.length,
      sm.matrix i j = sm.matrix j i)
    (a b : Nat) :
    (SimilarityMatrix.mean_softmax_probability_matrix E sm subset_labels).matrix a b
      = (SimilarityMatrix.mean_softmax_probability_matrix E sm subset_labels).matrix b a
    ∧ (SimilarityMatrix.mean_softmax_probability_matrix E sm subset_labels).matrix a a
      = 1 := by
  simp only [SimilarityMatrix.mean_softmax_probability_matrix]
  constructor
  · by_cases hij : (find_indices sm.labels (subset_labels.getD sm.labels)).getD a 0
        = (find_indices sm.labels (subset_labels.getD sm.labels)).getD b 0
    · rw [if_pos hij, if_pos hij.symm]
    · rw [if_neg hij, if_neg (Ne.symm hij)]
      ring
  · simp

/-- C5, witness: the theorem applied to the all-zero (hence symmetric)
similarity matrix over a b c with the full label set and the pair (0, 1). -/
theorem c5_mean_softmax_symmetric_unit_diagonal_witness :
    (∀ i ∈ List.range zeroSM3.labels.length, ∀ j ∈ List.range zeroSM3.labels.length,
      zeroSM3.matrix i j = zeroSM3.matrix j i)
    ∧ ((SimilarityMatrix.mean_softmax_probability_matrix oneE zeroSM3 none).matrix 0 1
        = (SimilarityMatrix.mean_softmax_probability_matrix oneE zeroSM3 none).matrix 1 0
      ∧ (SimilarityMatrix.mean_softmax_probability_matrix oneE zeroSM3 none).matrix 0 0
        = 1) :=
  ⟨by intro i _ j _; rfl,
    c5_mean_softmax_symmetric_unit_diagonal oneE zeroSM3 none
      (by intro i _ j _; rfl) 0 1⟩

/-! ### C6 -/

/-- C6, counterexample to the claim as stated for the engine in
src/hebart_comparison.py: its `randomisation_p` always requests
`numpy.random.permutation(48)`, not a permutation of the condition index
set of its inputs. On concrete 3 x 3 inputs with the identity-draw stream,
a size-48 permutation necessarily contains indices beyond 2, so the fancy
indexing of the second matrix fails (modelled `none`), while an engine
that permutes the actual 3-element condition index set — rsa.py's
`randomisation_p` on the same inputs and the same stream — returns the
p-value 1. -/
theorem c6_counterexample :
    Hebart.randomisation_p idSqrt idPerms Dmat Dmat 3 (1/20) 1 = none
    ∧ randomisation_p idSqrt idPerms Dmat Dmat 3 (1/20) 1 = 1 := by
  constructor
  · norm_num [Hebart.randomisation_p]
  · norm_num [randomisation_p, percentileofscore, null_distribution_id_eval,
      nanLt, nanLe]

/-- C6, amended, for rsa.py's `randomisation_p` (hebart_comparison.py's
variant instead hardcodes draws of size 48, which matches the condition
index set only for 48 x 48 inputs): in every one of the n_perms
iterations, the t-th entry of the null distribution is the correlation of
the FIRST matrix's fixed condensed upper triangle with the condensed upper
triangle of the second matrix whose rows and columns are simultaneously
permuted by the t-th drawn permutation of the n-element condition index
set (n being the first matrix's dimension); that the draw is uniformly
random is a property of numpy's generator, outside this embedding. -/
theorem c6_null_entry_permutes_second_matrix (s : ℚ → ℚ)
    (perms : Nat → Nat → Nat → Nat) (rdm_1 rdm_2 : Mat)
    (n n_perms t : Nat) (ht : t < n_perms) :
    (null_distribution s perms rdm_1 rdm_2 n n_perms).getD t none
      = corrcoef s (squareform rdm_1 n)
          (squareform (fun i j => rdm_2 (perms n t i) (perms n t j)) n) := by
  unfold null_distribution
  rw [getD_map_of_lt _ _ _ _ 0 (by simpa using ht)]
  rw [List.getD_eq_getElem?_getD, List.getElem?_range ht]
  rfl

/-- C6, witness: the amended theorem applied to the zero 2 x 2 pair with
the identity-draw stream at iteration 0. -/
theorem c6_null_entry_permutes_second_matrix_witness :
    0 < 1
    ∧ (null_distribution idSqrt idPerms zMat zMat 2 1).getD 0 none
        = corrcoef idSqrt (squareform zMat 2)
            (squareform (fun i j => zMat (idPerms 2 0 i) (idPerms 2 0 j)) 2) :=
  ⟨by decide,
    c6_null_entry_permutes_second_matrix idSqrt idPerms zMat zMat 2 1 0 (by decide)⟩

/-! ### C7 -/

/-- C7, counterexample to the claim as stated: the program subtracts
binary64 floats, and `1 - (1 - x)` is not bit-identical to `x` for the
double nearest 1/10. Building a 1-condition similarity matrix holding that
double, converting it to an RDM with `RDM.from_similarity_matrix` and back
with `SimilarityMatrix.from_rdm` — both at binary64 precision — yields a
matrix entry two units in the last place below the original (significand
7205759403792794 comes back as 7205759403792792, at scale 2^(-56)), so the
round-trip is not the exact identity. -/
theorem c7_counterexample :
    (SimilarityMatrix.from_rdm64 (RDM.from_similarity_matrix64
        ⟨fun _ _ => roundDouble (1 / 10), ["a"]⟩)).matrix 0 0
      ≠ (⟨fun _ _ => roundDouble (1 / 10), ["a"]⟩ :
          LabelledSymmetricMatrix).matrix 0 0 := by
  show sub64 1 (sub64 1 (roundDouble (1/10))) ≠ roundDouble (1/10)
  simp only [sub64]
  rw [roundDouble_tenth, roundDouble_step2, roundDouble_step3]
  norm_num

/-- C7, amended: in exact (real or rational) arithmetic the composition of
`RDM.from_similarity_matrix` with `SimilarityMatrix.from_rdm` is the exact
identity on every similarity matrix, labels preserved. At binary64
precision the program computes `1 - (1 - x)` entrywise, which is not
bit-identical to `x` in general — the entry nearest 0.1 comes back two
units in its last place lower (see `c7_counterexample`), and no uniform
relative accuracy in terms of the entry holds (an entry below the 2^(-53)
scale of 1 returns as exactly 0) — so the claimed entry-for-entry exact
equality is refuted and only the exact-arithmetic identity is asserted. -/
theorem c7_roundtrip_exact_identity (S : LabelledSymmetricMatrix) :
    SimilarityMatrix.from_rdm (RDM.from_similarity_matrix S) = S := by
  cases S with
  | mk m ls =>
    simp only [RDM.from_similarity_matrix, SimilarityMatrix.from_rdm]
    congr 1
    funext i j
    ring

/-! ### C8 -/

/-- C8, counterexample to the claim as stated: on a degenerate pair that
passes scipy's squareform validation — the zero-diagonal constant
off-diagonal matrix correlates with itself, both condensed vectors being
the constant (5, 5, 5) of zero variance — `correlate_with` performs no
detection at all and simply returns the NaN that `corrcoef` silently
produces (`some none`: a returned float that is NaN, not a raised or
otherwise flagged undefined-correlation result). -/
theorem c8_counterexample :
    LabelledSymmetricMatrix.correlate_with idSqrt constOff3 constOff3
      = some none := by
  have hv : is_valid_dm constOff3.matrix constOff3.labels.length := by
    constructor
    · intro i _ j _
      by_cases hij : i = j
      · subst hij; rfl
      · show (if i = j then (0:ℚ) else 5) = if j = i then 0 else 5
        rw [if_neg hij, if_neg (Ne.symm hij)]
    · intro i _
      show (if i = i then (0:ℚ) else 5) = 0
      rw [if_pos rfl]
  unfold LabelledSymmetricMatrix.correlate_with squareform_checked
  rw [if_pos hv]
  show some (corrcoef idSqrt _ _) = some none
  norm_num [corrcoef, constOff3, squareform, sumSqDev, listMean,
    List.range_succ]

/-- C8, amended: whenever both inputs pass scipy's squareform validation
(exact symmetry and zero diagonal — otherwise squareform itself raises
ValueError before any correlation is computed, modelled by the outer
`none`) and the condensed upper triangle of either input has zero
variance, `correlate_with` returns the raw NaN of `corrcoef` (`some
none`), unflagged — there is no detection or explicit
undefined-correlation surfacing in the code. -/
theorem c8_degenerate_correlation_is_nan (s : ℚ → ℚ)
    (m1 m2 : LabelledSymmetricMatrix)
    (hv1 : is_valid_dm m1.matrix m1.labels.length)
    (hv2 : is_valid_dm m2.matrix m2.labels.length)
    (hdeg : sumSqDev (squareform m1.matrix m1.labels.length) = 0
      ∨ sumSqDev (squareform m2.matrix m2.labels.length) = 0) :
    LabelledSymmetricMatrix.correlate_with s m1 m2 = some none := by
  unfold LabelledSymmetricMatrix.correlate_with squareform_checked
  rw [if_pos hv1, if_pos hv2]
  show some (corrcoef s _ _) = some none
  rw [corrcoef, if_pos hdeg]

/-- C8, witness: the amended theorem applied to the all-zero 3 x 3 matrix
(a valid distance matrix) against itself. -/
theorem c8_degenerate_correlation_is_nan_witness :
    is_valid_dm zeroSM3.matrix zeroSM3.labels.length
    ∧ (sumSqDev (squareform zeroSM3.matrix zeroSM3.labels.length) = 0
      ∨ sumSqDev (squareform zeroSM3.matrix zeroSM3.labels.length) = 0)
    ∧ LabelledSymmetricMatrix.correlate_with idSqrt zeroSM3 zeroSM3
        = some none := by
  have hv : is_valid_dm zeroSM3.matrix zeroSM3.labels.length :=
    ⟨fun i _ j _ => rfl, fun i _ => rfl⟩
  have hz : sumSqDev (squareform zeroSM3.matrix zeroSM3.labels.length) = 0 := by
    norm_num [sumSqDev, squareform, listMean, zeroSM3, List.range_succ]
  exact ⟨hv, Or.inl hz,
    c8_degenerate_correlation_is_nan idSqrt zeroSM3 zeroSM3 hv hv (Or.inl hz)⟩

/-! ### C9 -/

/-- C9: for every norms lookup, distance function and dataset, if either
key word of row i is absent from the norms (the lookup returns `none`,
the WordNotInNormsError case), then the predictor column built by
`add_sensorimotor_predictor` holds a missing value exactly at row i; the
builder still produces an entry for every row (the failure does not abort
the run), and the entry of every row j is determined by row j alone, so
all other rows are unaffected. -/
theorem c9_missing_word_yields_none (lookup : String → Option (List ℚ))
    (dist : List ℚ → List ℚ → ℚ) (rows : List (String × String)) (i j : Nat)
    (hi : i < rows.length) (hj : j < rows.length)
    (habs : lookup (rows.getD i ("", "")).1 = none
      ∨ lookup (rows.getD i ("", "")).2 = none) :
    (add_sensorimotor_predictor lookup dist rows).getD i (some 0) = none
    ∧ (add_sensorimotor_predictor lookup dist rows).length = rows.length
    ∧ (add_sensorimotor_predictor lookup dist rows).getD j (some 0)
        = calc_sensorimotor_distance lookup dist (rows.getD j ("", "")) := by
  unfold add_sensorimotor_predictor
  refine ⟨?_, by simp, getD_map_of_lt _ _ _ _ _ hj⟩
  rw [getD_map_of_lt _ _ _ _ ("", "") hi]
  unfold calc_sensorimotor_distance
  rcases habs with h | h
  · rw [h]
  · cases hv : lookup (rows.getD i ("", "")).1 with
    | none => rfl
    | some v => rw [h]

/-- C9, witness: a two-row dataset over a lookup covering only the word
cat; row 0 pairs cat with the uncovered dog and gets `none`, row 1 pairs
cat with itself and is computed normally. -/
theorem c9_missing_word_yields_none_witness :
    0 < ([("cat", "dog"), ("cat", "cat")] : List (String × String)).length
    ∧ 1 < ([("cat", "dog"), ("cat", "cat")] : List (String × String)).length
    ∧ (catLookup (([("cat", "dog"), ("cat", "cat")] :
          List (String × String)).getD 0 ("", "")).1 = none
      ∨ catLookup (([("cat", "dog"), ("cat", "cat")] :
          List (String × String)).getD 0 ("", "")).2 = none)
    ∧ ((add_sensorimotor_predictor catLookup zeroDist
          [("cat", "dog"), ("cat", "cat")]).getD 0 (some 0) = none
      ∧ (add_sensorimotor_predictor catLookup zeroDist
          [("cat", "dog"), ("cat", "cat")]).length
        = ([("cat", "dog"), ("cat", "cat")] : List (String × String)).length
      ∧ (add_sensorimotor_predictor catLookup zeroDist
          [("cat", "dog"), ("cat", "cat")]).getD 1 (some 0)
        = calc_sensorimotor_distance catLookup zeroDist
            (([("cat", "dog"), ("cat", "cat")] :
              List (String × String)).getD 1 ("", ""))) :=
  ⟨by decide, by decide, Or.inr (by decide),
    c9_missing_word_yields_none catLookup zeroDist
      [("cat", "dog"), ("cat", "cat")] 0 1
      (by decide) (by decide) (Or.inr (by decide))⟩

/-! ### C10 -/

/-- C10, counterexample to the claim as stated: with all_words the single
word a and select_words the single absent word b, `searchsorted` returns
the insertion point 1 — the membership assertion on its length holds — but
index 1 is out of range for the 1 x 1 matrix, so the final fancy-indexed
selection raises IndexError (modelled `none`): the function DOES fail on
an absent selected word whose insertion point equals the number of
conditions. -/
theorem c10_counterexample :
    Hebart.mean_softmax_prob_matrix oneE ["a"] ["b"] (fun _ _ => 0) = none := by
  have hss : Hebart.searchsorted ["a"] ["b"] = [1] := by decide
  norm_num [Hebart.mean_softmax_prob_matrix, hss]

/-- C10, amended: for every all_words and select_words,
`searchsorted(all_words, select_words)` returns exactly one index per
selected word, so the membership assertion in `mean_softmax_prob_matrix`
holds unconditionally, absent words included; however the function does
not always survive an absent selected word: it runs to completion exactly
when every returned insertion point is below the number of conditions
(absent words with interior insertion points are silently given
sorted-insertion-point indices, while an absent word sorting past the end
makes the selection fail with an out-of-range index). -/
theorem c10_searchsorted_assert_and_failure (E : ℚ → ℚ)
    (all_words select_words : List String) (sim : Mat) :
    (Hebart.searchsorted all_words select_words).length = select_words.length
    ∧ ((Hebart.mean_softmax_prob_matrix E all_words select_words sim).isSome
        ↔ ∀ p ∈ Hebart.searchsorted all_words select_words,
            p < all_words.length) := by
  refine ⟨by simp [Hebart.searchsorted], ?_⟩
  simp only [Hebart.mean_softmax_prob_matrix]
  split_ifs with h
  · simpa using h
  · simpa using h
